import Mathlib

/-!
Shallow embedding of the galvable firmware (src/esp32c3_galvo/esp32c3_galvo.ino):
a BLE-controlled multi-channel PWM galvanometer driver.

Float32 values are modelled at the bit level.  A 32-bit word carries sign,
exponent and fraction fields; every finite float32 is an exact integer
multiple of 2^(-149) (the smallest subnormal), so a finite word is
represented by that integer (`val149`), making all comparisons and the one
product `f * 1000.0f` computed by the firmware exact integer arithmetic.
IEEE round-to-nearest-even of the product to the float32 grid becomes
nearest-even integer rounding of `n / 2^d` where `2^(d-149)` is the grid
step of the binade of the result, and the C cast `(int)` is truncation toward
zero.  The model is exact for every quantity the firmware can produce
(magnitudes below 2^10, since inputs are clamped to [0, 1] before the
multiplication by 1000).
-/

set_option maxRecDepth 40000

/-- Pin assignment array from the source: `GALVO_PINS[] = {4, 3, 2, 1, 0, 10}`. -/
def GALVO_PINS : List Nat := [4, 3, 2, 1, 0, 10]

/-- Number of channels, `sizeof(GALVO_PINS)/sizeof(GALVO_PINS[0])`. -/
def NUM_CHANNELS : Nat := GALVO_PINS.length

/-- Sign bit of a float32 word. -/
def f32sign (w : Nat) : Nat := w / 2 ^ 31 % 2

/-- Exponent field (8 bits) of a float32 word. -/
def f32exp (w : Nat) : Nat := w / 2 ^ 23 % 2 ^ 8

/-- Fraction field (23 bits) of a float32 word. -/
def f32frac (w : Nat) : Nat := w % 2 ^ 23

/-- IEEE-754: the word denotes NaN iff the exponent field is all ones and the
fraction is nonzero. -/
def f32IsNan (w : Nat) : Bool := f32exp w == 255 && f32frac w != 0

/-- IEEE-754: the word denotes an infinity iff the exponent field is all ones
and the fraction is zero. -/
def f32IsInf (w : Nat) : Bool := f32exp w == 255 && f32frac w == 0

/-- Magnitude of a finite float32 word in units of 2^(-149): the subnormal
form `frac * 2^(-149)` when the exponent field is zero, the normal form
`(2^23 + frac) * 2^(e - 150)` otherwise. -/
def mag149 (w : Nat) : ℕ :=
  if f32exp w = 0 then f32frac w else (2 ^ 23 + f32frac w) * 2 ^ (f32exp w - 1)

/-- Exact value of a finite float32 word in units of 2^(-149) (signed).
Junk on NaN/infinity words; those are always dispatched on before this is
consulted. -/
def val149 (w : Nat) : ℤ :=
  if f32sign w = 1 then -(mag149 w : ℤ) else (mag149 w : ℤ)

/-- IEEE comparison `f < 0.0f` on a non-NaN word: negative infinity compares
below zero, a finite word compares by its exact value (so `-0.0 < 0.0` is
false).  On a NaN word this is false, matching IEEE. -/
def f32LtZero (w : Nat) : Bool :=
  (f32IsInf w && f32sign w == 1) || (!(f32exp w == 255) && decide (val149 w < 0))

/-- IEEE comparison `f > 1.0f` on a non-NaN word: positive infinity compares
above one, a finite word compares by its exact value; `1.0f` is 2^149 units
of 2^(-149).  False on NaN words. -/
def f32GtOne (w : Nat) : Bool :=
  (f32IsInf w && f32sign w == 0) || (!(f32exp w == 255) && decide (2 ^ 149 < val149 w))

/-- Sanitization in `GalvoCallbacks::onWrite`:
`if (isnan(f) || f < 0.0f) f = 0.0f; if (f > 1.0f) f = 1.0f;`
expressed on words (`0x00000000` is `0.0f`, `0x3F800000` is `1.0f`). -/
def clampWord (w : Nat) : Nat :=
  if f32IsNan w || f32LtZero w then 0
  else if f32GtOne w then 0x3F800000
  else w

/-- Round `n / 2^d` to the nearest integer, ties to even: compare the
remainder against half the divisor. -/
def rnEvenDiv (n : ℕ) (d : ℕ) : ℕ :=
  if d = 0 then n
  else if n % 2 ^ d < 2 ^ (d - 1) then n / 2 ^ d
  else if 2 ^ (d - 1) < n % 2 ^ d then n / 2 ^ d + 1
  else if n / 2 ^ d % 2 = 0 then n / 2 ^ d else n / 2 ^ d + 1

/-- Grid parameter of the binade of `n * 2^(-149)`, for values below 2^10:
the largest `d ≤ 135` with `2^(d+23) ≤ n`, i.e. the value is at least
`2^(d-126)`, so the float32 grid step around it is `2^(d-149)`; `d = 0`
(step `2^(-149)`) covers the whole subnormal range. -/
def binadeAux (n : ℕ) : List ℕ → ℕ
  | [] => 0
  | d :: rest => if 2 ^ (d + 23) ≤ n then d else binadeAux n rest

/-- Candidate grid parameters, scanned descending from 135 (binade [512, 1024))
down to 1 (binade of the smallest normal values). -/
def binadeList : List ℕ := (List.range 135).map fun k => 135 - k

/-- Grid parameter of a nonnegative fixed-point value (units of 2^(-149)). -/
def binadeD (n : ℕ) : ℕ := binadeAux n binadeList

/-- Magnitude pipeline of `(int)(f * 1000.0f)` on a nonnegative exact product
`n * 2^(-149)`: round to the float32 grid step `2^(binadeD n - 149)` by
nearest-even, then truncate the resulting float `M * 2^(binadeD n - 149)`
to an integer. -/
def dutyMag (n : ℕ) : ℕ :=
  rnEvenDiv n (binadeD n) / 2 ^ (149 - binadeD n)

/-- The C expression `(int)(f * 1000.0f)` on a finite float32 of value
`v * 2^(-149)`: exact product, IEEE nearest-even rounding to float32, then
truncation toward zero.  Faithful for |f| < 2^10 / 1000, which covers every
clamped value the firmware passes. -/
def dutyOfVal (v : ℤ) : ℤ :=
  if v < 0 then -(dutyMag (v * 1000).natAbs : ℤ) else (dutyMag (v * 1000).toNat : ℤ)

/-- Observable state of the channel table: the `duty[]` array and the log of
`ledcWrite(pin, value)` hardware calls issued so far. -/
structure GState where
  duty : List ℤ
  hw : List (Nat × ℤ)
deriving DecidableEq

/-- Embedding of `set_duty(uint8_t ch, float f)`: reject out-of-range channels
with no state change, otherwise store `(int)(f * 1000.0f)` and issue exactly
one hardware write to the bound pin.  The float argument is carried as a
word; every call site passes a clamped (finite) word. -/
def set_duty (ch : Nat) (fw : Nat) (st : GState) : GState :=
  if NUM_CHANNELS ≤ ch then st
  else
    let d := dutyOfVal (val149 fw)
    { duty := st.duty.set ch d, hw := st.hw ++ [(GALVO_PINS.getD ch 0, d)] }

/-- Little-endian reassembly of 4 bytes, as `memcpy(&f, data, 4)` does on this
little-endian target. -/
def le32 (b0 b1 b2 b3 : Nat) : Nat := b0 + 256 * b1 + 65536 * b2 + 16777216 * b3

/-- Payload decoding step of `GalvoCallbacks::onWrite`: a 4-byte payload is a
float word for channel 0, a 5-byte payload adds a channel byte, anything else
is ignored. -/
def decodeWrite (p : List Nat) : Option (Nat × Nat) :=
  if p.length = 4 then some (le32 (p.getD 0 0) (p.getD 1 0) (p.getD 2 0) (p.getD 3 0), 0)
  else if p.length = 5 then
    some (le32 (p.getD 0 0) (p.getD 1 0) (p.getD 2 0) (p.getD 3 0), p.getD 4 0)
  else none

/-- Embedding of `GalvoCallbacks::onWrite`: decode, clamp, dispatch to
`set_duty`. -/
def onWrite (p : List Nat) (st : GState) : GState :=
  match decodeWrite p with
  | none => st
  | some (w, ch) => set_duty ch (clampWord w) st

/-- The full value pipeline applied to one float word: sanitize, multiply by
1000 in float32, truncate.  This is what ends up in `duty[ch]` for an
in-range channel. -/
def mapped_duty (w : Nat) : ℤ := dutyOfVal (val149 (clampWord w))

/-- State after `setup()`: every duty is 0 and each pin received one hardware
write of 0. -/
def initState : GState :=
  { duty := List.replicate NUM_CHANNELS 0, hw := GALVO_PINS.map fun p => (p, 0) }

/-- Run a sequence of BLE write events from the post-setup state. -/
def runWrites (ps : List (List Nat)) : GState :=
  ps.foldl (fun st p => onWrite p st) initState

/-- Stack-delivered connection events handled by `ServerCallbacks`. -/
inductive ConnEvent
  | connect
  | disconnect
deriving DecidableEq

/-- Connection-lifecycle state: whether a peer is attached, whether the LED
indicator is lit, and how many `startAdvertising` requests the callbacks have
issued. -/
structure ConnState where
  connected : Bool
  ledOn : Bool
  advStarts : Nat
deriving DecidableEq

/-- Embedding of `ServerCallbacks`: `onConnect` lights the LED and leaves
advertising alone; `onDisconnect` extinguishes it and requests advertising
once. -/
def connStep (st : ConnState) : ConnEvent → ConnState
  | ConnEvent.connect => { st with connected := true, ledOn := true }
  | ConnEvent.disconnect =>
      { connected := false, ledOn := false, advStarts := st.advStarts + 1 }

/-- Idle state after `setup()`: no peer, LED written HIGH (off). -/
def connInit : ConnState := { connected := false, ledOn := false, advStarts := 0 }

/-- Run a sequence of connect/disconnect events from the idle state. -/
def runConn (evs : List ConnEvent) : ConnState := evs.foldl connStep connInit

/-- Externally observable actions of `setup()`, in program order. -/
inductive SetupAction
  | attachPin (pin : Nat)
  | hwWrite (pin : Nat) (v : ℤ)
  | dutyZero (i : Nat)
  | bleOn
  | serviceStart
  | advStart
deriving DecidableEq

/-- Per-channel body of the setup loop: `ledcAttach`, `ledcWrite(pin, 0)`,
`duty[i] = 0`. -/
def setupChannelTrace : List Nat → List SetupAction
  | [] => []
  | i :: rest =>
      SetupAction.attachPin (GALVO_PINS.getD i 0) ::
      SetupAction.hwWrite (GALVO_PINS.getD i 0) 0 ::
      SetupAction.dutyZero i ::
      setupChannelTrace rest

/-- Action trace of `setup()`: the channel loop, then BLE bring-up, service
start and advertising start. -/
def setupTrace : List SetupAction :=
  setupChannelTrace (List.range NUM_CHANNELS) ++
    [SetupAction.bleOn, SetupAction.serviceStart, SetupAction.advStart]

/-- The binade scan returns a scanned candidate or the subnormal fallback 0. -/
theorem binadeAux_mem (n : ℕ) (l : List ℕ) : binadeAux n l ∈ l ∨ binadeAux n l = 0 := by
  induction l with
  | nil => exact Or.inr rfl
  | cons d rest ih =>
      simp only [binadeAux]
      split
      · exact Or.inl (List.mem_cons_self d rest)
      · rcases ih with h | h
        · exact Or.inl (List.mem_cons_of_mem d h)
        · exact Or.inr h

/-- Every grid parameter the scan can produce is at most 135 (binade 2^9). -/
theorem binadeD_le (n : ℕ) : binadeD n ≤ 135 := by
  have hall : ∀ x ∈ binadeList, x ≤ 135 := by
    intro x hx
    simp only [binadeList, List.mem_map] at hx
    obtain ⟨k, _, rfl⟩ := hx
    omega
  rcases binadeAux_mem n binadeList with h | h
  · exact hall _ h
  · show binadeAux n binadeList ≤ 135
    rw [h]
    omega

/-- Nearest-even rounding of n / 2^d never exceeds an integer bound B with
n ≤ B * 2^d. -/
theorem rnEvenDiv_le (n d B : ℕ) (h : n ≤ B * 2 ^ d) : rnEvenDiv n d ≤ B := by
  unfold rnEvenDiv
  split
  · subst d
    simpa using h
  · have hpos : 0 < 2 ^ d := Nat.pos_pow_of_pos d (by omega)
    have hk : n / 2 ^ d ≤ B := by
      calc n / 2 ^ d ≤ B * 2 ^ d / 2 ^ d := Nat.div_le_div_right h
        _ = B := Nat.mul_div_cancel B hpos
    have hkey : n % 2 ^ d ≠ 0 → n / 2 ^ d + 1 ≤ B := by
      intro hr
      rcases Nat.lt_or_ge (n / 2 ^ d) B with hlt | hge
      · omega
      · exfalso
        have heq : n / 2 ^ d = B := le_antisymm hk hge
        have hmod : 2 ^ d * (n / 2 ^ d) + n % 2 ^ d = n := Nat.div_add_mod n (2 ^ d)
        rw [heq] at hmod
        have : n % 2 ^ d = n - 2 ^ d * B := by omega
        have hB : B * 2 ^ d = 2 ^ d * B := Nat.mul_comm _ _
        omega
    have hhalf : 0 < 2 ^ (d - 1) := Nat.pos_pow_of_pos _ (by omega)
    split
    · exact hk
    · split
      · exact hkey (by omega)
      · split
        · exact hk
        · exact hkey (by omega)

/-- Round-then-truncate magnitude bound: a product of at most 1000 (in units
of 2^(-149)) maps to a duty of at most 1000. -/
theorem dutyMag_le (n : ℕ) (h : n ≤ 1000 * 2 ^ 149) : dutyMag n ≤ 1000 := by
  have hd : binadeD n ≤ 135 := binadeD_le n
  have hsplit : 2 ^ (149 - binadeD n) * 2 ^ binadeD n = 2 ^ 149 := by
    rw [← pow_add]
    congr 1
    omega
  have h1 : rnEvenDiv n (binadeD n) ≤ 1000 * 2 ^ (149 - binadeD n) := by
    apply rnEvenDiv_le
    calc n ≤ 1000 * 2 ^ 149 := h
      _ = 1000 * (2 ^ (149 - binadeD n) * 2 ^ binadeD n) := by rw [hsplit]
      _ = 1000 * 2 ^ (149 - binadeD n) * 2 ^ binadeD n := by ring
  have hpos : 0 < 2 ^ (149 - binadeD n) := Nat.pos_pow_of_pos _ (by omega)
  calc dutyMag n = rnEvenDiv n (binadeD n) / 2 ^ (149 - binadeD n) := rfl
    _ ≤ 1000 * 2 ^ (149 - binadeD n) / 2 ^ (149 - binadeD n) := Nat.div_le_div_right h1
    _ = 1000 := Nat.mul_div_cancel _ hpos

/-- Sign bits are 0 or 1. -/
theorem f32sign_lt_two (w : Nat) : f32sign w < 2 := Nat.mod_lt _ (by omega)

/-- Sanitization output bound: the value of the clamped word is between 0.0 and
1.0 (in units of 2^(-149): between 0 and 2^149). -/
theorem clampWord_val (w : Nat) :
    0 ≤ val149 (clampWord w) ∧ val149 (clampWord w) ≤ 2 ^ 149 := by
  unfold clampWord
  split
  · constructor <;> decide
  · split
    · constructor <;> decide
    · rename_i hcond hg
      rw [Bool.or_eq_true, not_or] at hcond
      obtain ⟨hnan, hlt⟩ := hcond
      rw [Bool.not_eq_true] at hnan hlt
      rw [Bool.not_eq_true] at hg
      have hexp : (f32exp w == 255) = false := by
        by_contra hexpc
        rw [Bool.not_eq_false] at hexpc
        cases hfr : f32frac w == 0 with
        | false =>
            have hnn : f32IsNan w = true := by
              simp only [f32IsNan, hexpc, Bool.true_and]
              simpa using hfr
            simp [hnn] at hnan
        | true =>
            have hinf : f32IsInf w = true := by
              simp [f32IsInf, hexpc, hfr]
            have hs01 : f32sign w = 0 ∨ f32sign w = 1 := by
              have := f32sign_lt_two w
              omega
            rcases hs01 with hs | hs
            · simp [f32GtOne, hinf, hs, hexpc] at hg
            · simp [f32LtZero, hinf, hs, hexpc] at hlt
      constructor
      · simp only [f32LtZero, Bool.or_eq_false_iff, Bool.and_eq_false_iff] at hlt
        rcases hlt.2 with h | h
        · simp [hexp] at h
        · have := of_decide_eq_false h
          omega
      · simp only [f32GtOne, Bool.or_eq_false_iff, Bool.and_eq_false_iff] at hg
        rcases hg.2 with h | h
        · simp [hexp] at h
        · have := of_decide_eq_false h
          omega

/-- Totality and range of the duty mapping over every float32 word. -/
theorem mapped_duty_range (w : Nat) : 0 ≤ mapped_duty w ∧ mapped_duty w ≤ 1000 := by
  obtain ⟨h0, h1⟩ := clampWord_val w
  unfold mapped_duty dutyOfVal
  rw [if_neg (by omega)]
  refine ⟨Int.natCast_nonneg _, ?_⟩
  have hle : (val149 (clampWord w) * 1000).toNat ≤ 1000 * 2 ^ 149 := by
    apply Int.toNat_le.mpr
    push_cast
    nlinarith
  have := dutyMag_le _ hle
  exact_mod_cast this

/-- C1: the duty mapping is total over float32: sanitization (NaN or negative
to 0.0, above 1.0 to 1.0) followed by truncation of v * 1000.0 yields an
integer in [0, 1000] for every word, NaN words map to 0, and the listed
concrete inputs (-5.0, 2.0, 0.5, 1.0, 0.0) map to 0, 1000, 500, 1000, 0. -/
theorem galvo_c1 :
    (∀ w, 0 ≤ mapped_duty w ∧ mapped_duty w ≤ 1000) ∧
    (∀ w, f32IsNan w = true → mapped_duty w = 0) ∧
    mapped_duty 0xC0A00000 = 0 ∧
    mapped_duty 0x40000000 = 1000 ∧
    mapped_duty 0x3F000000 = 500 ∧
    mapped_duty 0x3F800000 = 1000 ∧
    mapped_duty 0x00000000 = 0 := by
  refine ⟨mapped_duty_range, ?_, by decide, by decide, by decide, by decide, by decide⟩
  intro w h
  have hc : clampWord w = 0 := by
    unfold clampWord
    rw [if_pos (by simp [h])]
  unfold mapped_duty
  rw [hc]
  decide

/-- Witness for C1 at the quiet-NaN word 0x7FC00000. -/
theorem galvo_c1_witness :
    0 ≤ mapped_duty 0x7FC00000 ∧ mapped_duty 0x7FC00000 = 0 :=
  ⟨(galvo_c1.1 0x7FC00000).1, galvo_c1.2.1 0x7FC00000 (by decide)⟩

/-- C2: a 4-byte payload decodes to the little-endian float32 word of bytes
0-3 with target channel 0; a 5-byte payload decodes to the same word with
the channel equal to byte 4, for the full byte domain, with no range
validation at decode time (the write handler dispatches whatever channel
was decoded). -/
theorem galvo_c2 (b0 b1 b2 b3 b4 : Nat) (st : GState) :
    decodeWrite [b0, b1, b2, b3] = some (le32 b0 b1 b2 b3, 0) ∧
    decodeWrite [b0, b1, b2, b3, b4] = some (le32 b0 b1 b2 b3, b4) ∧
    onWrite [b0, b1, b2, b3] st = set_duty 0 (clampWord (le32 b0 b1 b2 b3)) st ∧
    onWrite [b0, b1, b2, b3, b4] st = set_duty b4 (clampWord (le32 b0 b1 b2 b3)) st :=
  ⟨rfl, rfl, rfl, rfl⟩

/-- Witness for C2 on the 5-byte payload 00 00 80 3F 02. -/
theorem galvo_c2_witness :
    decodeWrite [0x00, 0x00, 0x80, 0x3F, 0x02] = some (le32 0x00 0x00 0x80 0x3F, 0x02) :=
  (galvo_c2 0x00 0x00 0x80 0x3F 0x02 initState).2.1

/-- C3: applying a duty to a channel index at or beyond NUM_CHANNELS is a
complete no-op: no hardware write, no state mutation. -/
theorem galvo_c3 (ch fw : Nat) (st : GState) (h : NUM_CHANNELS ≤ ch) :
    set_duty ch fw st = st := by
  unfold set_duty
  rw [if_pos h]

/-- Witness for C3 at channel index 6, the first out-of-range index. -/
theorem galvo_c3_witness : set_duty 6 0 initState = initState :=
  galvo_c3 6 0 initState (by decide)

/-- C4: a valid write to channel ch updates only the stored duty of that
channel and appends exactly one hardware write to its pin; end to end,
payload 00 00 00 3F sets channel 0 to 500 and payload 00 00 80 3F 02 then
sets channel 2 to 1000 while channel 0 stays at 500. -/
theorem galvo_c4 :
    (∀ st ch fw i, ch < NUM_CHANNELS → i ≠ ch →
        (set_duty ch fw st).duty.getD i 0 = st.duty.getD i 0 ∧
        (set_duty ch fw st).hw =
          st.hw ++ [(GALVO_PINS.getD ch 0, dutyOfVal (val149 fw))]) ∧
    (runWrites [[0x00, 0x00, 0x00, 0x3F]]).duty.getD 0 0 = 500 ∧
    (runWrites [[0x00, 0x00, 0x00, 0x3F], [0x00, 0x00, 0x80, 0x3F, 0x02]]).duty.getD 2 0
      = 1000 ∧
    (runWrites [[0x00, 0x00, 0x00, 0x3F], [0x00, 0x00, 0x80, 0x3F, 0x02]]).duty.getD 0 0
      = 500 := by
  refine ⟨?_, by decide, by decide, by decide⟩
  intro st ch fw i hch hne
  unfold set_duty
  rw [if_neg (by omega)]
  constructor
  · show (st.duty.set ch (dutyOfVal (val149 fw))).getD i 0 = st.duty.getD i 0
    rw [List.getD_eq_getElem?_getD, List.getD_eq_getElem?_getD,
      List.getElem?_set_ne (Ne.symm hne)]
  · rfl

/-- Witness for C4: writing channel 2 leaves channel 0 untouched and logs one
hardware write to pin 2 of the pin table. -/
theorem galvo_c4_witness :
    (set_duty 2 77 initState).duty.getD 0 0 = initState.duty.getD 0 0 ∧
    (set_duty 2 77 initState).hw =
      initState.hw ++ [(GALVO_PINS.getD 2 0, dutyOfVal (val149 77))] :=
  galvo_c4.1 initState 2 77 0 (by decide) (by decide)

/-- Duty-range invariant of the channel table: every stored duty lies in
[0, 1000]. -/
def DutyInv (st : GState) : Prop := ∀ x ∈ st.duty, 0 ≤ x ∧ x ≤ 1000

/-- One write event preserves the duty-range invariant, whatever payload
arrives. -/
theorem dutyInv_onWrite (p : List Nat) (st : GState) (h : DutyInv st) :
    DutyInv (onWrite p st) := by
  unfold onWrite
  cases hdec : decodeWrite p with
  | none => exact h
  | some wc =>
      obtain ⟨w, ch⟩ := wc
      show DutyInv (set_duty ch (clampWord w) st)
      unfold set_duty
      by_cases hc : NUM_CHANNELS ≤ ch
      · rw [if_pos hc]
        exact h
      · rw [if_neg hc]
        intro x hx
        replace hx : x ∈ st.duty.set ch (dutyOfVal (val149 (clampWord w))) := hx
        rcases List.mem_or_eq_of_mem_set hx with hmem | hx
        · exact h x hmem
        · subst hx
          exact mapped_duty_range w

/-- C5: in every reachable state (after setup and any sequence of write
events) the stored duty of every channel lies in [0, 1000]. -/
theorem galvo_c5 (ps : List (List Nat)) : ∀ x ∈ (runWrites ps).duty, 0 ≤ x ∧ x ≤ 1000 := by
  have hgen : ∀ (qs : List (List Nat)) (st : GState), DutyInv st →
      DutyInv (qs.foldl (fun s p => onWrite p s) st) := by
    intro qs
    induction qs with
    | nil => exact fun st h => h
    | cons q rest ih => exact fun st h => ih _ (dutyInv_onWrite q st h)
  have hinit : DutyInv initState := by
    unfold DutyInv
    decide
  exact hgen ps initState hinit

/-- Witness for C5 after one write of 0.5 to channel 0. -/
theorem galvo_c5_witness : 0 ≤ (500 : ℤ) ∧ (500 : ℤ) ≤ 1000 :=
  galvo_c5 [[0x00, 0x00, 0x00, 0x3F]] 500 (by decide)

/-- C6: payloads whose length is neither 4 nor 5 are ignored: the write
handler returns the state unchanged (no duty change, no hardware write). -/
theorem galvo_c6 (p : List Nat) (st : GState) (h4 : p.length ≠ 4) (h5 : p.length ≠ 5) :
    onWrite p st = st := by
  unfold onWrite decodeWrite
  rw [if_neg h4, if_neg h5]

/-- Witness for C6 at the empty payload. -/
theorem galvo_c6_witness : onWrite [] initState = initState :=
  galvo_c6 [] initState (by decide) (by decide)

/-- C7: the indicator always equals the connection state (on iff connected);
a connect event turns it on without touching advertising, a disconnect turns
it off and requests advertising once; the sequence connect-then-disconnect
from idle ends disconnected, indicator off, with exactly one advertising
re-request. -/
theorem galvo_c7 :
    (∀ evs, (runConn evs).ledOn = (runConn evs).connected) ∧
    (∀ st, (connStep st ConnEvent.connect).ledOn = true ∧
        (connStep st ConnEvent.connect).advStarts = st.advStarts) ∧
    (∀ st, (connStep st ConnEvent.disconnect).ledOn = false ∧
        (connStep st ConnEvent.disconnect).advStarts = st.advStarts + 1) ∧
    runConn [ConnEvent.connect, ConnEvent.disconnect] =
      { connected := false, ledOn := false, advStarts := 1 } := by
  refine ⟨?_, fun st => ⟨rfl, rfl⟩, fun st => ⟨rfl, rfl⟩, by decide⟩
  intro evs
  have hgen : ∀ (l : List ConnEvent) (st : ConnState), st.ledOn = st.connected →
      (l.foldl connStep st).ledOn = (l.foldl connStep st).connected := by
    intro l
    induction l with
    | nil => exact fun st h => h
    | cons e rest ih =>
        intro st h
        exact ih _ (by cases e <;> rfl)
  exact hgen evs connInit rfl

/-- Witness for C7 on the empty event sequence. -/
theorem galvo_c7_witness : (runConn []).ledOn = (runConn []).connected :=
  galvo_c7.1 []

/-- C8: setup brings every channel to duty 0 (stored and hardware) and
every such hardware write occurs strictly before the service start in the
setup trace, position 19; no uninitialized output is externally observable. -/
theorem galvo_c8 :
    initState.duty = List.replicate NUM_CHANNELS 0 ∧
    setupTrace.getD 19 SetupAction.advStart = SetupAction.serviceStart ∧
    (∀ i, i < NUM_CHANNELS →
        SetupAction.hwWrite (GALVO_PINS.getD i 0) 0 ∈ setupTrace.take 19 ∧
        SetupAction.dutyZero i ∈ setupTrace.take 19) := by
  refine ⟨rfl, rfl, ?_⟩
  decide

/-- Witness for C8 at channel 0. -/
theorem galvo_c8_witness :
    SetupAction.hwWrite (GALVO_PINS.getD 0 0) 0 ∈ setupTrace.take 19 :=
  (galvo_c8.2.2 0 (by decide)).1

/-- C9: write handling is idempotent per value: processing the same payload
twice leaves the same stored duties as processing it once, and one write
event issues at most one hardware write. -/
theorem galvo_c9 (p : List Nat) (st : GState) :
    (onWrite p (onWrite p st)).duty = (onWrite p st).duty ∧
    (onWrite p st).hw.length ≤ st.hw.length + 1 := by
  unfold onWrite
  cases hdec : decodeWrite p with
  | none => exact ⟨rfl, Nat.le_succ _⟩
  | some wc =>
      obtain ⟨w, ch⟩ := wc
      show (set_duty ch (clampWord w) (set_duty ch (clampWord w) st)).duty
            = (set_duty ch (clampWord w) st).duty ∧
          (set_duty ch (clampWord w) st).hw.length ≤ st.hw.length + 1
      unfold set_duty
      by_cases hc : NUM_CHANNELS ≤ ch
      · simp only [if_pos hc]
        exact ⟨trivial, Nat.le_succ _⟩
      · simp only [if_neg hc]
        constructor
        · show (st.duty.set ch _).set ch _ = st.duty.set ch _
          exact List.set_set _ _ _ _
        · show (st.hw ++ [_]).length ≤ st.hw.length + 1
          simp

/-- Witness for C9 on the payload 00 00 00 3F from the post-setup state. -/
theorem galvo_c9_witness :
    (onWrite [0x00, 0x00, 0x00, 0x3F] (onWrite [0x00, 0x00, 0x00, 0x3F] initState)).duty
      = (onWrite [0x00, 0x00, 0x00, 0x3F] initState).duty ∧
    (onWrite [0x00, 0x00, 0x00, 0x3F] initState).hw.length ≤ initState.hw.length + 1 :=
  galvo_c9 [0x00, 0x00, 0x00, 0x3F] initState

/-- C10: the compile-time channel bound is 6 (the pin array length); a 5-byte
payload naming a channel at or above 6 is silently rejected with no state
change, while channels 0 through 5 are accepted (one hardware write). -/
theorem galvo_c10 :
    NUM_CHANNELS = 6 ∧ GALVO_PINS.length = 6 ∧
    (∀ b0 b1 b2 b3 c : Nat, ∀ st : GState, 6 ≤ c →
        onWrite [b0, b1, b2, b3, c] st = st) ∧
    (∀ c fw : Nat, ∀ st : GState, c < 6 →
        (set_duty c fw st).hw.length = st.hw.length + 1) := by
  refine ⟨rfl, rfl, ?_, ?_⟩
  · intro b0 b1 b2 b3 c st hc
    show set_duty c (clampWord (le32 b0 b1 b2 b3)) st = st
    unfold set_duty
    rw [if_pos]
    exact hc
  · intro c fw st hc
    have h6 : NUM_CHANNELS = 6 := rfl
    unfold set_duty
    rw [if_neg (by omega)]
    show (st.hw ++ [_]).length = st.hw.length + 1
    simp

/-- Witness for C10: channel 200 is rejected, channel 0 is accepted. -/
theorem galvo_c10_witness :
    onWrite [0, 0, 0, 0, 200] initState = initState ∧
    (set_duty 0 0 initState).hw.length = initState.hw.length + 1 :=
  ⟨galvo_c10.2.2.1 0 0 0 0 200 initState (by decide),
    galvo_c10.2.2.2 0 0 initState (by decide)⟩
